import Mathlib

/-!
# Verification of the EDI claim parser (`src/edi/edi_parser.py`)

A shallow embedding of the parse/classify/re-emit pipeline of the EDI claim
parser.  File contents and segments are modelled as `List Char`; the
`csv.reader`-based tokenizer, the classifier loop of `parse_input_file`, and
`write_output_file` are translated function by function.  Python exceptions
(`KeyError`, `IndexError`, `ValueError`) are modelled as explicit error
values, and `sys.exit` via `handle_error` as an `exited` outcome carrying the
numeric exit code.

Two behaviours of the source are modelled with care:

* `csv.reader(fh, delimiter='~')` splits each physical line on `'~'`; a
  segment spanning a line break is yielded as two separate fields, never
  concatenated.  The model (`rawTokens`) assumes the content is free of the
  csv quote character `'"'` and of `'\r'`, which is the only regime the
  repository's data format exercises.

* `cur_claim_data` is a Python list shared by reference: a sealed `Claim`
  holds the same list object the classifier keeps appending to until the next
  claim-start segment rebinds it.  The parse state therefore keeps the types
  of the trailing sealed claims that still alias the current buffer
  (`aliased`) separately from the fully detached claims (`committed`); the
  observable claims list is reconstructed by `claimsOf`.
-/

/-- Character-list view of a string literal. -/
def strL (s : String) : List Char := s.toList

/-- Head-cons into the first fragment of a split result (helper for
`pySplitP`): mirrors the way `str.split` extends the current field. -/
def consHead (c : Char) : List (List Char) → List (List Char)
  | [] => [[c]]
  | t :: ts => (c :: t) :: ts

/-- Split a character list at every character satisfying `p`, keeping empty
fragments, as Python `str.split(sep)` does for a one-character separator
(generalised to a predicate so that splitting on `'\n'` and then on `'~'`
can be related to splitting on both at once). -/
def pySplitP (p : Char → Bool) : List Char → List (List Char)
  | [] => [[]]
  | c :: rest => if p c then [] :: pySplitP p rest else consHead c (pySplitP p rest)

/-- Python `str.split(d)` for a single-character separator `d`. -/
def pySplit (d : Char) : List Char → List (List Char) :=
  pySplitP (fun c => c = d)

/-- Python `d.join(parts)` for a single-character separator `d`. -/
def pyJoin (d : Char) (parts : List (List Char)) : List Char :=
  List.intercalate [d] parts

/-- Source constant `SEGMENT_DELIMITER = '~'`. -/
def SEGMENT_DELIMITER : Char := '~'

/-- Source constant `ELEMENT_DELIMITER = '*'`. -/
def ELEMENT_DELIMITER : Char := '*'

/-- Source constant `HEADER_SEGMENTS = ['ISA', 'GS']`. -/
def HEADER_SEGMENTS : List (List Char) := [strL "ISA", strL "GS"]

/-- Source constant `FOOTER_SEGMENTS = ['GE', 'IEA']`. -/
def FOOTER_SEGMENTS : List (List Char) := [strL "GE", strL "IEA"]

/-- Source constant `FOOTER_CLAIM_COUNT_SEGMENT = 'GE'`. -/
def FOOTER_CLAIM_COUNT_SEGMENT : List Char := strL "GE"

/-- Source constant `CLAIM_START_SEGMENT = 'ST'`. -/
def CLAIM_START_SEGMENT : List Char := strL "ST"

/-- Source constant `CLAIM_END_SEGMENT = 'SE'`. -/
def CLAIM_END_SEGMENT : List Char := strL "SE"

/-- Source constant `CLAIM_TYPE_SEGMENT = 'BHT'`. -/
def CLAIM_TYPE_SEGMENT : List Char := strL "BHT"

/-- Source constant `CLAIM_TYPE_ELEMENT_NUM = 3`. -/
def CLAIM_TYPE_ELEMENT_NUM : Nat := 3

/-- Source constant `CLAIM_COUNT_ELEMENT_NUM = 1`. -/
def CLAIM_COUNT_ELEMENT_NUM : Nat := 1

/-- Python `s.startswith(p)` on character lists. -/
def startsWithL (p s : List Char) : Bool := p.isPrefixOf s

/-- Python `s.startswith((p, q))`: true when either member of the pair is a
prefix. -/
def startsWithAny (ps : List (List Char)) (s : List Char) : Bool :=
  ps.any (fun p => startsWithL p s)

/-- The `ClaimType` enum of the source: exactly the two variants `CE`, `CF`. -/
inductive ClaimType
  | CE
  | CF
deriving DecidableEq, Repr

/-- All members of the `ClaimType` enum, in declaration order (the order
`for claim_type in ClaimType` iterates in). -/
def ClaimType.members : List ClaimType := [ClaimType.CE, ClaimType.CF]

/-- Lookup `ClaimType[name]` of an enum member by exact name match.
`none` models the `KeyError` Python raises for an unknown name. -/
def claimTypeOfName (name : List Char) : Option ClaimType :=
  if name = strL "CE" then some ClaimType.CE
  else if name = strL "CF" then some ClaimType.CF
  else none

/-- The `ErrorCode` enum of the source. -/
inductive ErrorCode
  | ERR_MISSING_SUBCOMMAND
  | ERR_MISSING_ARG
  | ERR_CANT_READ_FILE
  | ERR_CANT_WRITE_FILE
  | ERR_HEADER_NOT_FOUND
  | ERR_FOOTER_NOT_FOUND
  | ERR_CLAIM_DATA_NOT_FOUND
  | ERR_UNKNOWN
deriving DecidableEq, Repr

/-- The numeric value of each `ErrorCode` member (the process exit code
`handle_error` passes to `sys.exit`). -/
def ErrorCode.val : ErrorCode → Nat
  | .ERR_MISSING_SUBCOMMAND => 1
  | .ERR_MISSING_ARG => 2
  | .ERR_CANT_READ_FILE => 3
  | .ERR_CANT_WRITE_FILE => 4
  | .ERR_HEADER_NOT_FOUND => 5
  | .ERR_FOOTER_NOT_FOUND => 6
  | .ERR_CLAIM_DATA_NOT_FOUND => 7
  | .ERR_UNKNOWN => 256

/-- Python exceptions the modelled code can raise, with the information that
distinguishes them at the raise site. -/
inductive PyErr
  /-- Python `KeyError` from `ClaimType[name]` with an unrecognised `name`. -/
  | keyErrorClaimType (name : List Char)
  /-- Python `KeyError` from `claim_counts[None]` when no claim type was resolved. -/
  | keyErrorCounts
  /-- Python `IndexError` from `elements[CLAIM_TYPE_ELEMENT_NUM]` on a short `BHT`. -/
  | indexErrorGet
  /-- Python `IndexError` from `elements[CLAIM_COUNT_ELEMENT_NUM] = ...` on a short
  `GE` footer segment. -/
  | indexErrorSet
  /-- Python `ValueError` from `str.index` when the needle is absent. -/
  | valueError
deriving DecidableEq, Repr

/-- The `Claim` class: a claim type (possibly `None`) and the list of its
segments. -/
structure Claim where
  claim_type : Option ClaimType
  data : List (List Char)
deriving DecidableEq, Repr

/-- The module-level mutable state (`header`, `footer`, `claims`,
`claim_counts`).  After `init()` the `claim_counts` dict has exactly the
`ClaimType` members as keys, so it is modelled as a total function on
`ClaimType`; the failing lookup at key `None` is modelled explicitly in the
classifier step. -/
structure Registry where
  header : List (List Char)
  footer : List (List Char)
  claims : List Claim
  claim_counts : ClaimType → Nat

/-- The registry as it stands after `init()` in a fresh process: empty
lists, every claim count zero. -/
def initRegistry : Registry :=
  { header := [], footer := [], claims := [], claim_counts := fun _ => 0 }

/-- Internal state of the `parse_input_file` loop.  `committed` holds claims
whose data list is no longer aliased by `cur_claim_data`; `aliased` holds the
claim types of the trailing sealed claims that still share the buffer `buf`
(the Python list object currently bound to `cur_claim_data`). -/
structure PState where
  header : List (List Char)
  footer : List (List Char)
  committed : List Claim
  aliased : List (Option ClaimType)
  counts : ClaimType → Nat
  buf : List (List Char)
  curType : Option ClaimType

/-- The observable `claims` list: detached claims followed by the sealed
claims that still alias the current buffer. -/
def claimsOf (s : PState) : List Claim :=
  s.committed ++ s.aliased.map (fun t => { claim_type := t, data := s.buf })

/-- Parse state at entry of the loop, from the module globals. -/
def fromReg (g : Registry) : PState :=
  { header := g.header, footer := g.footer, committed := g.claims,
    aliased := [], counts := g.claim_counts, buf := [], curType := none }

/-- Module globals as left by a parse state. -/
def toReg (s : PState) : Registry :=
  { header := s.header, footer := s.footer, claims := claimsOf s,
    claim_counts := s.counts }

/-- One iteration of the classifier loop of `parse_input_file` on one field
`seg` delivered by the csv reader.  Follows the source's dispatch order:
skip empty, header prefixes, footer prefixes, claim start, claim end, then
append (resolving the claim type when the segment bears the `BHT` prefix).
Errors carry the state at raise time, since the globals are already mutated
when the exception escapes. -/
def classifyStep (s : PState) (seg : List Char) : Except (PyErr × PState) PState :=
  if seg = [] then
    .ok s
  else if startsWithAny HEADER_SEGMENTS seg then
    .ok { s with header := s.header ++ [seg] }
  else if startsWithAny FOOTER_SEGMENTS seg then
    .ok { s with footer := s.footer ++ [seg] }
  else if startsWithL CLAIM_START_SEGMENT seg then
    -- `cur_claim_data = [segment]` rebinds the buffer: previously sealed
    -- claims keep the old list, the unsealed contents are dropped.
    .ok { s with committed := claimsOf s, aliased := [], buf := [seg] }
  else if startsWithL CLAIM_END_SEGMENT seg then
    -- append, seal, then `claim_counts[cur_claim_type] + 1`: the lookup at
    -- key `None` raises after `claims.append` already ran.
    match s.curType with
    | none =>
        .error (.keyErrorCounts,
          { s with buf := s.buf ++ [seg], aliased := s.aliased ++ [none] })
    | some t =>
        .ok { s with buf := s.buf ++ [seg], aliased := s.aliased ++ [some t],
                     counts := fun u => if u = t then s.counts u + 1 else s.counts u }
  else
    -- all other claim segments: append first, then the `BHT` check.
    let s1 := { s with buf := s.buf ++ [seg] }
    if startsWithL CLAIM_TYPE_SEGMENT seg then
      let elements := pySplit ELEMENT_DELIMITER seg
      if h3 : CLAIM_TYPE_ELEMENT_NUM < elements.length then
        let name := (elements[CLAIM_TYPE_ELEMENT_NUM]).take 2
        match claimTypeOfName name with
        | some t => .ok { s1 with curType := some t }
        | none => .error (.keyErrorClaimType name, s1)
      else
        .error (.indexErrorGet, s1)
    else
      .ok s1

/-- The classifier loop over a list of csv fields. -/
def runSegs (s : PState) : List (List Char) → Except (PyErr × PState) PState
  | [] => .ok s
  | seg :: rest =>
    match classifyStep s seg with
    | .ok s' => runSegs s' rest
    | .error e => .error e

/-- The fields `csv.reader(fh, delimiter='~')` delivers to the loop, in
order: each physical line split on the segment delimiter (model valid for
content free of `'"'` and `'\r'`). -/
def rawTokens (content : List Char) : List (List Char) :=
  (pySplit '\n' content).flatMap (pySplit SEGMENT_DELIMITER)

/-- The tokenization stage as seen by the classifier's non-empty branch:
the non-empty fields, in file order. -/
def tokenize (content : List Char) : List (List Char) :=
  (rawTokens content).filter (fun t => t ≠ [])

/-- Outcome of a run of `parse_input_file` (and of the write phase): normal
return, `sys.exit(code)` through `handle_error`, or an uncaught Python
exception.  Every outcome carries the module globals as they stand at that
point. -/
inductive ParseOutcome
  | ok (r : Registry)
  | exited (code : Nat) (r : Registry)
  | raised (e : PyErr) (r : Registry)

/-- The module globals carried by an outcome. -/
def ParseOutcome.reg : ParseOutcome → Registry
  | .ok r => r
  | .exited _ r => r
  | .raised _ r => r

/-- Model of `parse_input_file`.  The file system is abstracted to
`Option (List Char)`: `none` models a path whose `open` raises
`FileNotFoundError` or `PermissionError`, `some content` a readable file
with that content. -/
def parse_input_file (content : Option (List Char)) (g : Registry) : ParseOutcome :=
  match content with
  | none => .exited ErrorCode.ERR_CANT_READ_FILE.val g
  | some c =>
    match runSegs (fromReg g) (rawTokens c) with
    | .ok s => .ok (toReg s)
    | .error (e, s) => .raised e (toReg s)

/-- The footer loop of `write_output_file`, accumulating the characters
written so far: for each footer segment a delimiter, then the segment, with
the claim-count element of a `GE`-prefixed segment rewritten to the decimal
string of `cnt`.  `elements[CLAIM_COUNT_ELEMENT_NUM] = ...` raises
`IndexError` when the split has fewer than two elements; the delimiter for
that segment is already written when it does. -/
def writeFooterAcc (cnt : Nat) : List (List Char) → List Char →
    Except (PyErr × List Char) (List Char)
  | [], acc => .ok acc
  | seg :: rest, acc =>
    let acc1 := acc ++ [SEGMENT_DELIMITER]
    if startsWithL FOOTER_CLAIM_COUNT_SEGMENT seg then
      let elements := pySplit ELEMENT_DELIMITER seg
      if CLAIM_COUNT_ELEMENT_NUM < elements.length then
        writeFooterAcc cnt rest
          (acc1 ++ pyJoin ELEMENT_DELIMITER
            (elements.set CLAIM_COUNT_ELEMENT_NUM (strL (Nat.repr cnt))))
      else
        .error (.indexErrorSet, acc1)
    else
      writeFooterAcc cnt rest (acc1 ++ seg)

/-- The claim-data loop of `write_output_file`: for every sealed claim of
the requested type, a delimiter then the claim's segments joined by the
delimiter. -/
def writeClaimsPart (g : Registry) (claim_type : ClaimType) : List Char :=
  (g.claims.filter (fun c => c.claim_type = some claim_type)).flatMap
    (fun c => SEGMENT_DELIMITER :: pyJoin SEGMENT_DELIMITER c.data)

/-- Model of `write_output_file`, with the file system abstracted to the produced
content (`open` for writing is assumed to succeed; its failure path exits
the run and writes nothing).  `none`: no file written (zero count);
`some (.ok content)`: the file holds `content`; `some (.error (e, partial))`:
the write raised `e` with `partial` already written. -/
def write_output_file (g : Registry) (claim_type : ClaimType) :
    Option (Except (PyErr × List Char) (List Char)) :=
  if g.claim_counts claim_type ≠ 0 then
    some (writeFooterAcc (g.claim_counts claim_type) g.footer
      (pyJoin SEGMENT_DELIMITER g.header ++ writeClaimsPart g claim_type))
  else
    none

/-- Python `os.path.basename` for POSIX paths: everything after the last
`'/'`. -/
def basenameL (p : List Char) : List Char :=
  (pySplit '/' p).getLastD []

/-- Python `str.index(c)`: position of the first occurrence, `none` models
the `ValueError` raised when `c` is absent. -/
def strIndex (c : Char) (s : List Char) : Option Nat :=
  s.findIdx? (fun x => x = c)

/-- Outcome of the write phase of the `split` subcommand (everything after
`parse_input_file` returned), recording which files were written with which
content. -/
inductive SplitOutcome
  | exited (code : Nat)
  | raised (e : PyErr) (written : List (ClaimType × List Char))
  | wrote (files : List (ClaimType × Except (PyErr × List Char) (List Char)))

/-- The write phase of the `split` subcommand: the structural guards, the
prefix/suffix derivation from the first `'.'` of the input basename, then
one `write_output_file` call per claim type with a nonzero count.  The
prefix/suffix derivation happens before any file is opened, so its
`ValueError` (basename without `'.'`) leaves zero files written. -/
def splitWritePhase (g : Registry) (input_file : List Char) : SplitOutcome :=
  if g.header = [] then .exited ErrorCode.ERR_HEADER_NOT_FOUND.val
  else if g.footer = [] then .exited ErrorCode.ERR_FOOTER_NOT_FOUND.val
  else if g.claims = [] then .exited ErrorCode.ERR_CLAIM_DATA_NOT_FOUND.val
  else
    let input_filename := basenameL input_file
    match strIndex '.' input_filename with
    | none => .raised .valueError []
    | some _ =>
      .wrote (((ClaimType.members).filter (fun t => g.claim_counts t ≠ 0)).filterMap
        (fun t => (write_output_file g t).map (fun w => (t, w))))

/-! ## Definitions taken from the specification's words

For the refinement claims the spec's description is written down separately,
to be compared with the definitions above that embed the source. -/

/-- C2's description of the tokenizer: tokenize on the delimiter character
irrespective of physical line breaks, concatenating a segment split across a
line boundary back into one segment — i.e. delete line breaks, split on the
delimiter, drop empty fragments. -/
def claimedTokenize (content : List Char) : List (List Char) :=
  (pySplit SEGMENT_DELIMITER (content.filter (fun c => c ≠ '\n'))).filter
    (fun t => t ≠ [])

/-- The count rewrite applied to one footer segment, as a total function:
a `GE`-prefixed segment has its element at the count index replaced by the
decimal string of `cnt` (elements split and re-joined on the element
delimiter), any other segment passes through. -/
def rewriteGE (cnt : Nat) (seg : List Char) : List Char :=
  if startsWithL FOOTER_CLAIM_COUNT_SEGMENT seg then
    pyJoin ELEMENT_DELIMITER
      ((pySplit ELEMENT_DELIMITER seg).set CLAIM_COUNT_ELEMENT_NUM (strL (Nat.repr cnt)))
  else seg

/-- C1's description of the written file: header segments joined by the
delimiter; for each sealed claim of the requested type a delimiter then its
segments joined by the delimiter; for each footer segment a delimiter then
the segment, a `GE`-prefixed segment having its element at the count index
replaced by the decimal claim count. -/
def claimedOutput (g : Registry) (claim_type : ClaimType) : List Char :=
  pyJoin SEGMENT_DELIMITER g.header
  ++ writeClaimsPart g claim_type
  ++ g.footer.flatMap (fun seg =>
      SEGMENT_DELIMITER :: rewriteGE (g.claim_counts claim_type) seg)

/-- The shape every sealed claim is supposed to have: non-empty data whose
first segment bears the claim-start code and whose last segment bears the
claim-end code. -/
def goodClaim (c : Claim) : Bool :=
  !c.data.isEmpty
    && startsWithL CLAIM_START_SEGMENT (c.data.headD [])
    && startsWithL CLAIM_END_SEGMENT (c.data.getLastD [])

/-- Structural well-formedness automaton over the classified token stream.
The flag records whether a claim is open; a claim-end, claim-type or
ordinary body segment arriving while no claim is open is rejected (those are
exactly the inputs on which the classifier appends to a buffer it does not
own any more, or to one never started by a claim-start segment). -/
def wfStep (inClaim : Bool) (seg : List Char) : Option Bool :=
  if seg = [] then some inClaim
  else if startsWithAny HEADER_SEGMENTS seg then some inClaim
  else if startsWithAny FOOTER_SEGMENTS seg then some inClaim
  else if startsWithL CLAIM_START_SEGMENT seg then some true
  else if inClaim then
    (if startsWithL CLAIM_END_SEGMENT seg then some false else some true)
  else none

/-- Run of the well-formedness automaton. -/
def wfRun (inClaim : Bool) : List (List Char) → Option Bool
  | [] => some inClaim
  | seg :: rest =>
    match wfStep inClaim seg with
    | some b => wfRun b rest
    | none => none

/-- A token stream is structurally well formed when the automaton accepts
it (a dangling open claim at end of stream is allowed: the source silently
discards it). -/
def wellFormedSegs (toks : List (List Char)) : Bool :=
  (wfRun false toks).isSome

/-- Sum of the per-type claim counts over every `ClaimType`. -/
def sumCounts (f : ClaimType → Nat) : Nat :=
  f ClaimType.CE + f ClaimType.CF

/-- Number of claim-start segments in a token stream. -/
def countStarts (toks : List (List Char)) : Nat :=
  toks.countP (fun t => startsWithL CLAIM_START_SEGMENT t)

/-- Number of claim-end segments in a token stream. -/
def countEnds (toks : List (List Char)) : Nat :=
  toks.countP (fun t => startsWithL CLAIM_END_SEGMENT t)

/-- A claim buffer of the expected shape: non-empty, claim-start code on its
first segment, claim-end code on its last. -/
def goodBuf (buf : List (List Char)) : Prop :=
  buf ≠ [] ∧ startsWithL CLAIM_START_SEGMENT (buf.headD []) = true ∧
    startsWithL CLAIM_END_SEGMENT (buf.getLastD []) = true

/-- Invariant tying the well-formedness automaton's state to the parse
state: detached claims are well shaped; while a claim is open the buffer is
a fresh one (no sealed claim aliases it) starting with the claim-start
segment; while no claim is open, any sealed claims still aliasing the
buffer see a complete, well-shaped claim. -/
def InvP (b : Bool) (s : PState) : Prop :=
  (∀ c ∈ s.committed, goodClaim c = true) ∧
  (b = true → s.aliased = []) ∧
  (b = true → s.buf ≠ [] ∧ startsWithL CLAIM_START_SEGMENT (s.buf.headD []) = true) ∧
  (b = false → s.aliased ≠ [] → goodBuf s.buf)

/-- A concrete registry with one `CE` claim, used to instantiate
hypothesis-bearing theorems about the write phase. -/
def regW : Registry :=
  { header := [strL "ISA*x"],
    footer := [strL "GE*9*1", strL "IEA*1"],
    claims := [{ claim_type := some ClaimType.CE,
                 data := [strL "ST*1", strL "SE*1"] }],
    claim_counts := fun t => if t = ClaimType.CE then 1 else 0 }

/-- Splitting on the segment delimiter and on physical line breaks at once:
what the csv-based tokenizer actually computes (up to empty fragments). -/
def splitOnDelimOrNewline : List Char → List (List Char) :=
  pySplitP (fun c => c = SEGMENT_DELIMITER || c = '\n')

/-- A concrete parse state used to instantiate hypothesis-bearing theorems. -/
def sExample : PState := fromReg initRegistry

/-- A concrete parse state with an unsealed claim buffer open. -/
def sOpen : PState :=
  { fromReg initRegistry with buf := [strL "ST*77", strL "NM1*IL"],
                              curType := some ClaimType.CF }

/-- Decidable equality for `Except`, needed to evaluate outcomes of the
write phase on concrete registries. -/
instance {ε α : Type} [DecidableEq ε] [DecidableEq α] : DecidableEq (Except ε α) :=
  fun x y =>
    match x, y with
    | .ok a, .ok b =>
      if h : a = b then isTrue (by rw [h]) else isFalse (by intro hh; cases hh; exact h rfl)
    | .error a, .error b =>
      if h : a = b then isTrue (by rw [h]) else isFalse (by intro hh; cases hh; exact h rfl)
    | .ok _, .error _ => isFalse (by intro hh; cases hh)
    | .error _, .ok _ => isFalse (by intro hh; cases hh)

/-! ## Helper lemmas -/

theorem pySplitP_ne_nil (p : Char → Bool) (l : List Char) : pySplitP p l ≠ [] := by
  induction l with
  | nil => simp [pySplitP]
  | cons c rest ih =>
    simp only [pySplitP]
    split
    · simp
    · match h : pySplitP p rest with
      | [] => exact absurd h ih
      | t :: ts => simp [consHead]

theorem consHead_append (c : Char) (A B : List (List Char)) (hA : A ≠ []) :
    consHead c (A ++ B) = consHead c A ++ B := by
  match A with
  | [] => exact absurd rfl hA
  | t :: ts => simp [consHead]

/-- Splitting on `p` and then splitting every fragment on `q` is splitting on
`p` or `q` at once: the csv line split followed by the per-line delimiter
split is a split on both characters. -/
theorem pySplitP_flatMap (p q : Char → Bool) (l : List Char) :
    (pySplitP p l).flatMap (pySplitP q) = pySplitP (fun c => p c || q c) l := by
  induction l with
  | nil => simp [pySplitP]
  | cons c rest ih =>
    by_cases hp : p c
    · simp only [pySplitP, hp, if_pos, Bool.true_or]
      simpa [pySplitP] using ih
    · obtain ⟨h, tail, hL⟩ : ∃ h tail, pySplitP p rest = h :: tail := by
        match hx : pySplitP p rest with
        | [] => exact absurd hx (pySplitP_ne_nil p rest)
        | y :: ys => exact ⟨y, ys, rfl⟩
      have hLHS : (pySplitP p rest).flatMap (pySplitP q) =
          pySplitP q h ++ tail.flatMap (pySplitP q) := by
        rw [hL]; simp [List.flatMap_cons]
      by_cases hq : q c
      · simp only [pySplitP, hp, if_neg, hq, Bool.false_or, if_pos, hL, consHead,
          List.flatMap_cons, if_true]
        rw [← hL, ← ih, hLHS]
        simp [pySplitP, hq]
      · have hpq : (p c || q c) = false := by simp [hp, hq]
        have hR : pySplitP (fun c => p c || q c) (c :: rest) =
            consHead c (pySplitP (fun c => p c || q c) rest) := by
          simp [pySplitP, hpq]
        have hLstep : pySplitP p (c :: rest) = consHead c (pySplitP p rest) := by
          simp [pySplitP, hp]
        have e1 : (pySplitP p (c :: rest)).flatMap (pySplitP q)
            = pySplitP q (c :: h) ++ tail.flatMap (pySplitP q) := by
          rw [hLstep, hL]; simp [consHead, List.flatMap_cons]
        have e2 : pySplitP q (c :: h) = consHead c (pySplitP q h) := by
          simp [pySplitP, hq]
        rw [e1, e2, ← consHead_append c _ _ (pySplitP_ne_nil q h), ← hLHS, ih, hR]

/-- A segment bearing the claim-start code is neither empty nor matched by a
header or footer code (the prefix codes are pairwise non-overlapping). -/
theorem st_excl {seg : List Char} (h : startsWithL CLAIM_START_SEGMENT seg = true) :
    seg ≠ [] ∧ startsWithAny HEADER_SEGMENTS seg = false ∧
    startsWithAny FOOTER_SEGMENTS seg = false := by
  obtain ⟨t, rfl⟩ := List.isPrefixOf_iff_prefix.mp h
  exact ⟨by simp [CLAIM_START_SEGMENT, strL], rfl, rfl⟩

/-- A claim-end segment is neither empty nor matched by the header, footer or
claim-start codes. -/
theorem se_excl {seg : List Char} (h : startsWithL CLAIM_END_SEGMENT seg = true) :
    seg ≠ [] ∧ startsWithAny HEADER_SEGMENTS seg = false ∧
    startsWithAny FOOTER_SEGMENTS seg = false ∧
    startsWithL CLAIM_START_SEGMENT seg = false := by
  obtain ⟨t, rfl⟩ := List.isPrefixOf_iff_prefix.mp h
  exact ⟨by simp [CLAIM_END_SEGMENT, strL], rfl, rfl, rfl⟩

/-- A claim-type-bearing segment is matched by none of the other codes. -/
theorem bht_excl {seg : List Char} (h : startsWithL CLAIM_TYPE_SEGMENT seg = true) :
    seg ≠ [] ∧ startsWithAny HEADER_SEGMENTS seg = false ∧
    startsWithAny FOOTER_SEGMENTS seg = false ∧
    startsWithL CLAIM_START_SEGMENT seg = false ∧
    startsWithL CLAIM_END_SEGMENT seg = false := by
  obtain ⟨t, rfl⟩ := List.isPrefixOf_iff_prefix.mp h
  exact ⟨by simp [CLAIM_TYPE_SEGMENT, strL], rfl, rfl, rfl, rfl⟩

/-- A header-coded segment is nonempty. -/
theorem hdr_ne_nil {seg : List Char} (h : startsWithAny HEADER_SEGMENTS seg = true) :
    seg ≠ [] := by
  rintro rfl
  exact Bool.noConfusion h

/-- A footer-coded segment is nonempty and not header-coded. -/
theorem ftr_excl {seg : List Char} (h : startsWithAny FOOTER_SEGMENTS seg = true) :
    seg ≠ [] ∧ startsWithAny HEADER_SEGMENTS seg = false := by
  constructor
  · rintro rfl; exact Bool.noConfusion h
  · simp only [startsWithAny, FOOTER_SEGMENTS, List.any_eq_true] at h
    rcases h with ⟨p, hp, hps⟩
    simp only [List.mem_cons, List.mem_singleton] at hp
    rcases hp with rfl | rfl | h0
    · obtain ⟨t, rfl⟩ := List.isPrefixOf_iff_prefix.mp hps
      rfl
    · obtain ⟨t, rfl⟩ := List.isPrefixOf_iff_prefix.mp hps
      rfl
    · exact absurd h0 (by simp)

/-! ### Branch lemmas for one classifier step -/

theorem classifyStep_empty (s : PState) : classifyStep s [] = .ok s := rfl

theorem classifyStep_hdr {seg : List Char} (s : PState)
    (h : startsWithAny HEADER_SEGMENTS seg = true) :
    classifyStep s seg = .ok { s with header := s.header ++ [seg] } := by
  simp [classifyStep, hdr_ne_nil h, h]

theorem classifyStep_ftr {seg : List Char} (s : PState)
    (h : startsWithAny FOOTER_SEGMENTS seg = true) :
    classifyStep s seg = .ok { s with footer := s.footer ++ [seg] } := by
  obtain ⟨hne, hnh⟩ := ftr_excl h
  simp [classifyStep, hne, hnh, h]

theorem classifyStep_start {seg : List Char} (s : PState)
    (h : startsWithL CLAIM_START_SEGMENT seg = true) :
    classifyStep s seg = .ok { s with committed := claimsOf s, aliased := [], buf := [seg] } := by
  obtain ⟨hne, hnh, hnf⟩ := st_excl h
  simp [classifyStep, hne, hnh, hnf, h]

theorem classifyStep_end_some {seg : List Char} {t : ClaimType} (s : PState)
    (h : startsWithL CLAIM_END_SEGMENT seg = true) (ht : s.curType = some t) :
    classifyStep s seg = .ok { s with buf := s.buf ++ [seg],
                                      aliased := s.aliased ++ [some t],
                                      counts := fun u =>
                                        if u = t then s.counts u + 1 else s.counts u } := by
  obtain ⟨hne, hnh, hnf, hnst⟩ := se_excl h
  simp [classifyStep, hne, hnh, hnf, hnst, h, ht]

theorem classifyStep_end_none {seg : List Char} (s : PState)
    (h : startsWithL CLAIM_END_SEGMENT seg = true) (ht : s.curType = none) :
    classifyStep s seg = .error (.keyErrorCounts,
      { s with buf := s.buf ++ [seg], aliased := s.aliased ++ [none] }) := by
  obtain ⟨hne, hnh, hnf, hnst⟩ := se_excl h
  simp [classifyStep, hne, hnh, hnf, hnst, h, ht]

theorem classifyStep_other {seg : List Char} (s : PState) (hne : seg ≠ [])
    (hnh : startsWithAny HEADER_SEGMENTS seg = false)
    (hnf : startsWithAny FOOTER_SEGMENTS seg = false)
    (hnst : startsWithL CLAIM_START_SEGMENT seg = false)
    (hnse : startsWithL CLAIM_END_SEGMENT seg = false)
    (hnb : startsWithL CLAIM_TYPE_SEGMENT seg = false) :
    classifyStep s seg = .ok { s with buf := s.buf ++ [seg] } := by
  simp [classifyStep, hne, hnh, hnf, hnst, hnse, hnb]

theorem classifyStep_bht_ok {seg : List Char} {t : ClaimType} (s : PState)
    (h : startsWithL CLAIM_TYPE_SEGMENT seg = true)
    (h3 : CLAIM_TYPE_ELEMENT_NUM < (pySplit ELEMENT_DELIMITER seg).length)
    (hres : claimTypeOfName
      (((pySplit ELEMENT_DELIMITER seg)[CLAIM_TYPE_ELEMENT_NUM]).take 2) = some t) :
    classifyStep s seg = .ok { s with buf := s.buf ++ [seg], curType := some t } := by
  obtain ⟨hne, hnh, hnf, hnst, hnse⟩ := bht_excl h
  simp [classifyStep, hne, hnh, hnf, hnst, hnse, h, h3, hres]

theorem classifyStep_bht_badname {seg : List Char} (s : PState)
    (h : startsWithL CLAIM_TYPE_SEGMENT seg = true)
    (h3 : CLAIM_TYPE_ELEMENT_NUM < (pySplit ELEMENT_DELIMITER seg).length)
    (hres : claimTypeOfName
      (((pySplit ELEMENT_DELIMITER seg)[CLAIM_TYPE_ELEMENT_NUM]).take 2) = none) :
    classifyStep s seg = .error (.keyErrorClaimType
      (((pySplit ELEMENT_DELIMITER seg)[CLAIM_TYPE_ELEMENT_NUM]).take 2),
      { s with buf := s.buf ++ [seg] }) := by
  obtain ⟨hne, hnh, hnf, hnst, hnse⟩ := bht_excl h
  simp [classifyStep, hne, hnh, hnf, hnst, hnse, h, h3, hres]

theorem classifyStep_bht_short {seg : List Char} (s : PState)
    (h : startsWithL CLAIM_TYPE_SEGMENT seg = true)
    (h3 : ¬ CLAIM_TYPE_ELEMENT_NUM < (pySplit ELEMENT_DELIMITER seg).length) :
    classifyStep s seg = .error (.indexErrorGet, { s with buf := s.buf ++ [seg] }) := by
  obtain ⟨hne, hnh, hnf, hnst, hnse⟩ := bht_excl h
  simp [classifyStep, hne, hnh, hnf, hnst, hnse, h, h3]

/-- Running the classifier over an appended list runs the pieces in
sequence. -/
theorem runSegs_append (s : PState) (l1 l2 : List (List Char)) :
    runSegs s (l1 ++ l2) =
      match runSegs s l1 with
      | .ok s' => runSegs s' l2
      | .error e => .error e := by
  induction l1 generalizing s with
  | nil => simp [runSegs]
  | cons seg rest ih =>
    simp only [List.cons_append, runSegs]
    cases classifyStep s seg with
    | ok s' => exact ih s'
    | error e => rfl

theorem pySplitP_congr (p q : Char → Bool) (h : ∀ c, p c = q c) (l : List Char) :
    pySplitP p l = pySplitP q l := by
  induction l with
  | nil => rfl
  | cons c rest ih => simp only [pySplitP, h c, ih]

/-- No fragment produced by `pySplitP p` contains a character satisfying
`p`: the split strips every delimiter occurrence. -/
theorem mem_pySplitP (p : Char → Bool) (l : List Char) :
    ∀ t ∈ pySplitP p l, ∀ c ∈ t, p c = false := by
  induction l with
  | nil =>
    intro t ht c hc
    simp [pySplitP] at ht
    subst ht
    cases hc
  | cons a rest ih =>
    intro t ht c hc
    by_cases hp : p a
    · rcases List.mem_cons.mp (by simpa [pySplitP, hp] using ht) with rfl | hmem
      · cases hc
      · exact ih t hmem c hc
    · obtain ⟨h, tail, hL⟩ : ∃ h tail, pySplitP p rest = h :: tail := by
        match hx : pySplitP p rest with
        | [] => exact absurd hx (pySplitP_ne_nil p rest)
        | y :: ys => exact ⟨y, ys, rfl⟩
      have ht2 : t ∈ (a :: h) :: tail := by
        simpa [pySplitP, hp, hL, consHead] using ht
      rcases List.mem_cons.mp ht2 with rfl | hmem
      · rcases List.mem_cons.mp hc with rfl | hc2
        · exact Bool.eq_false_iff.mpr hp
        · exact ih h (by rw [hL]; exact List.mem_cons_self h tail) c hc2
      · exact ih t (by rw [hL]; exact List.mem_cons_of_mem h hmem) c hc

/-- The csv tokenization is the one-pass split on delimiter-or-newline. -/
theorem rawTokens_eq_splitBoth (content : List Char) :
    rawTokens content = splitOnDelimOrNewline content := by
  unfold rawTokens splitOnDelimOrNewline pySplit
  rw [pySplitP_flatMap]
  exact pySplitP_congr _ _
    (fun c => by by_cases h1 : c = '\n' <;> by_cases h2 : c = SEGMENT_DELIMITER <;>
      simp [h1, h2]) content

/-! ## C2 — tokenization across physical line breaks -/

/-- C2, counterexample: on the content `"AB\nCD~"` the code's tokenizer
yields the two segments `AB`, `CD` (the line break acts as a segment
boundary), while the claimed tokenizer — concatenating a segment split
across a line boundary back into one segment — would yield the single
segment `ABCD`.  `csv.reader` never joins unquoted fields across records. -/
theorem c2_counterexample :
    tokenize (strL "AB\nCD~") = [strL "AB", strL "CD"] ∧
    claimedTokenize (strL "AB\nCD~") = [strL "ABCD"] ∧
    tokenize (strL "AB\nCD~") ≠ claimedTokenize (strL "AB\nCD~") := by
  decide

/-- C2, amended: the tokenization stage feeding the classifier yields the
non-empty fragments, in file order, obtained by splitting the content on
BOTH the segment delimiter and physical line breaks; delimiter characters
and line breaks are stripped and empty fragments (including a trailing one)
are discarded.  A segment split across a line boundary is yielded as two
separate segments, not concatenated. -/
theorem c2_amended_tokenize (content : List Char) :
    tokenize content = (splitOnDelimOrNewline content).filter (fun t => t ≠ []) ∧
    ∀ t ∈ tokenize content, t ≠ [] ∧ SEGMENT_DELIMITER ∉ t ∧ '\n' ∉ t := by
  constructor
  · unfold tokenize
    rw [rawTokens_eq_splitBoth]
  · intro t ht
    have ht' : t ∈ rawTokens content ∧ t ≠ [] := by
      unfold tokenize at ht
      have := List.mem_filter.mp ht
      exact ⟨this.1, by simpa using this.2⟩
    have hmem : t ∈ pySplitP (fun c => c = SEGMENT_DELIMITER || c = '\n') content := by
      have h1 := ht'.1
      rw [rawTokens_eq_splitBoth] at h1
      exact h1
    have hall := mem_pySplitP _ content t hmem
    refine ⟨ht'.2, ?_, ?_⟩
    · intro hc
      have := hall SEGMENT_DELIMITER hc
      simp at this
    · intro hc
      have := hall '\n' hc
      simp at this

/-- Witness for C2 (amended) at the counterexample content and its first
token. -/
theorem c2_amended_tokenize_witness :
    tokenize (strL "AB\nCD~") =
      (splitOnDelimOrNewline (strL "AB\nCD~")).filter (fun t => t ≠ []) ∧
    (strL "AB" ≠ [] ∧ SEGMENT_DELIMITER ∉ strL "AB" ∧ '\n' ∉ strL "AB") :=
  ⟨(c2_amended_tokenize (strL "AB\nCD~")).1,
   (c2_amended_tokenize (strL "AB\nCD~")).2 (strL "AB") (by decide)⟩

/-! ## C5 — claim start discards an open buffer -/

/-- C5: a segment bearing the claim-start code replaces the claim buffer
with a new one containing only that segment; no error is raised, the claims
list is unchanged (the unsealed prior buffer is discarded, nothing was
appended for it) and no count is incremented; header, footer and the
current claim type are untouched. -/
theorem c5_claim_start_discards (s : PState) (seg : List Char)
    (h : startsWithL CLAIM_START_SEGMENT seg = true) :
    ∃ s', classifyStep s seg = .ok s' ∧ s'.buf = [seg] ∧
      claimsOf s' = claimsOf s ∧ s'.counts = s.counts ∧
      s'.header = s.header ∧ s'.footer = s.footer ∧ s'.curType = s.curType := by
  refine ⟨_, classifyStep_start s h, rfl, ?_, rfl, rfl, rfl, rfl⟩
  simp [claimsOf]

/-- Witness for C5 on a state with an open, unsealed two-segment buffer. -/
theorem c5_claim_start_discards_witness :
    ∃ s', classifyStep sOpen (strL "ST*0001") = .ok s' ∧ s'.buf = [strL "ST*0001"] ∧
      claimsOf s' = claimsOf sOpen ∧ s'.counts = sOpen.counts ∧
      s'.header = sOpen.header ∧ s'.footer = sOpen.footer ∧
      s'.curType = sOpen.curType :=
  c5_claim_start_discards sOpen (strL "ST*0001") (by decide)

/-! ## C6 — claim-type resolution from the BHT segment -/

/-- C6: on a segment bearing the claim-type code, the classifier splits the
segment on the element delimiter, takes the element at the fixed type index,
takes its first two characters and resolves them to a `ClaimType` by exact
name match, setting the current claim type; when no `ClaimType` of that name
exists the step fails with the lookup failure (propagated out of the parse,
not silently ignored). -/
theorem c6_bht_resolves_claim_type (s : PState) (seg : List Char)
    (hb : startsWithL CLAIM_TYPE_SEGMENT seg = true)
    (h3 : CLAIM_TYPE_ELEMENT_NUM < (pySplit ELEMENT_DELIMITER seg).length) :
    (∀ t, claimTypeOfName (((pySplit ELEMENT_DELIMITER seg)[CLAIM_TYPE_ELEMENT_NUM]).take 2)
        = some t →
      classifyStep s seg = .ok { s with buf := s.buf ++ [seg], curType := some t }) ∧
    (claimTypeOfName (((pySplit ELEMENT_DELIMITER seg)[CLAIM_TYPE_ELEMENT_NUM]).take 2)
        = none →
      classifyStep s seg = .error (.keyErrorClaimType
        (((pySplit ELEMENT_DELIMITER seg)[CLAIM_TYPE_ELEMENT_NUM]).take 2),
        { s with buf := s.buf ++ [seg] })) :=
  ⟨fun _ ht => classifyStep_bht_ok s hb h3 ht,
   fun hn => classifyStep_bht_badname s hb h3 hn⟩

/-- Witness for C6: a recognised type code resolves to `CE`, an unknown one
raises the lookup failure. -/
theorem c6_bht_resolves_claim_type_witness :
    classifyStep sExample (strL "BHT*0019*00*CE123*X") =
      .ok { sExample with buf := sExample.buf ++ [strL "BHT*0019*00*CE123*X"],
                          curType := some ClaimType.CE } ∧
    classifyStep sExample (strL "BHT*0019*00*ZZ123*X") =
      .error (.keyErrorClaimType (strL "ZZ"),
        { sExample with buf := sExample.buf ++ [strL "BHT*0019*00*ZZ123*X"] }) :=
  ⟨(c6_bht_resolves_claim_type sExample (strL "BHT*0019*00*CE123*X")
      (by decide) (by decide)).1 ClaimType.CE (by decide),
   (c6_bht_resolves_claim_type sExample (strL "BHT*0019*00*ZZ123*X")
      (by decide) (by decide)).2 (by decide)⟩

/-! ## C7 — unreadable input exits with code 3, state untouched -/

/-- C7: when the input path cannot be opened, the run terminates through
`handle_error` with the `ERR_CANT_READ_FILE` exit code, whose value is 3,
and the module globals (header, footer, claims, claim counts) are exactly
as they were before the call. -/
theorem c7_unreadable_input (g : Registry) :
    parse_input_file none g = .exited ErrorCode.ERR_CANT_READ_FILE.val g ∧
    ErrorCode.ERR_CANT_READ_FILE.val = 3 :=
  ⟨rfl, rfl⟩

/-! ### Further prefix exclusivity, from the positive side -/

theorem hdr_not_se {seg : List Char} (h : startsWithAny HEADER_SEGMENTS seg = true) :
    startsWithL CLAIM_END_SEGMENT seg = false := by
  simp only [startsWithAny, HEADER_SEGMENTS, List.any_cons, List.any_nil,
    Bool.or_false, Bool.or_eq_true] at h
  rcases h with h | h <;> obtain ⟨t, rfl⟩ := List.isPrefixOf_iff_prefix.mp h <;> rfl

theorem ftr_not_se {seg : List Char} (h : startsWithAny FOOTER_SEGMENTS seg = true) :
    startsWithL CLAIM_END_SEGMENT seg = false := by
  simp only [startsWithAny, FOOTER_SEGMENTS, List.any_cons, List.any_nil,
    Bool.or_false, Bool.or_eq_true] at h
  rcases h with h | h <;> obtain ⟨t, rfl⟩ := List.isPrefixOf_iff_prefix.mp h <;> rfl

theorem st_not_se {seg : List Char} (h : startsWithL CLAIM_START_SEGMENT seg = true) :
    startsWithL CLAIM_END_SEGMENT seg = false := by
  obtain ⟨t, rfl⟩ := List.isPrefixOf_iff_prefix.mp h
  rfl

/-! ### Step invariants -/

/-- Length of the observable claims list. -/
theorem claimsOf_length (s : PState) :
    (claimsOf s).length = s.committed.length + s.aliased.length := by
  simp [claimsOf]

/-- Any step that is not a claim-type segment leaves the resolved claim
type untouched (sealing a claim and starting a new buffer included). -/
theorem step_curType_eq {s : PState} {seg : List Char} {s' : PState}
    (hnb : startsWithL CLAIM_TYPE_SEGMENT seg = false)
    (hok : classifyStep s seg = .ok s') : s'.curType = s.curType := by
  by_cases hne : seg = []
  · subst hne
    rw [classifyStep_empty] at hok
    injection hok with h
    subst h
    rfl
  · by_cases hh : startsWithAny HEADER_SEGMENTS seg = true
    · rw [classifyStep_hdr s hh] at hok
      injection hok with h
      subst h
      rfl
    · by_cases hf : startsWithAny FOOTER_SEGMENTS seg = true
      · rw [classifyStep_ftr s hf] at hok
        injection hok with h
        subst h
        rfl
      · by_cases hst : startsWithL CLAIM_START_SEGMENT seg = true
        · rw [classifyStep_start s hst] at hok
          injection hok with h
          subst h
          rfl
        · by_cases hse : startsWithL CLAIM_END_SEGMENT seg = true
          · cases hct : s.curType with
            | none =>
              rw [classifyStep_end_none s hse hct] at hok
              exact absurd hok (by simp)
            | some t =>
              rw [classifyStep_end_some s hse hct] at hok
              injection hok with h
              subst h
              exact hct
          · rw [classifyStep_other s hne (Bool.eq_false_iff.mpr hh)
              (Bool.eq_false_iff.mpr hf) (Bool.eq_false_iff.mpr hst)
              (Bool.eq_false_iff.mpr hse) hnb] at hok
            injection hok with h
            subst h
            rfl

/-- A step on a segment that is neither a claim-end nor a claim-type
segment always succeeds and leaves the resolved claim type untouched. -/
theorem step_no_end_no_bht {s : PState} {seg : List Char}
    (hse : startsWithL CLAIM_END_SEGMENT seg = false)
    (hnb : startsWithL CLAIM_TYPE_SEGMENT seg = false) :
    ∃ s', classifyStep s seg = .ok s' ∧ s'.curType = s.curType := by
  by_cases hne : seg = []
  · exact ⟨s, by rw [hne]; exact classifyStep_empty s, rfl⟩
  · by_cases hh : startsWithAny HEADER_SEGMENTS seg = true
    · exact ⟨_, classifyStep_hdr s hh, rfl⟩
    · by_cases hf : startsWithAny FOOTER_SEGMENTS seg = true
      · exact ⟨_, classifyStep_ftr s hf, rfl⟩
      · by_cases hst : startsWithL CLAIM_START_SEGMENT seg = true
        · exact ⟨_, classifyStep_start s hst, rfl⟩
        · exact ⟨_, classifyStep_other s hne (Bool.eq_false_iff.mpr hh)
            (Bool.eq_false_iff.mpr hf) (Bool.eq_false_iff.mpr hst) hse hnb, rfl⟩

/-- Running the classifier over segments none of which is a claim-end or a
claim-type segment succeeds and never changes the resolved claim type. -/
theorem runSegs_no_end_no_bht (toks : List (List Char)) :
    ∀ s : PState, (∀ t ∈ toks, startsWithL CLAIM_END_SEGMENT t = false ∧
        startsWithL CLAIM_TYPE_SEGMENT t = false) →
    ∃ s', runSegs s toks = .ok s' ∧ s'.curType = s.curType := by
  induction toks with
  | nil => exact fun s _ => ⟨s, rfl, rfl⟩
  | cons seg rest ih =>
    intro s hall
    obtain ⟨hse, hnb⟩ := hall seg (List.mem_cons_self _ _)
    obtain ⟨s1, hstep, hct1⟩ := @step_no_end_no_bht s seg hse hnb
    obtain ⟨s', hrun, hct2⟩ := ih s1 (fun t ht => hall t (List.mem_cons_of_mem _ ht))
    refine ⟨s', ?_, hct2.trans hct1⟩
    simp only [runSegs, hstep]
    exact hrun

/-- One successful step changes the observable claims-list length and the
summed claim counts by exactly one when the segment bears the claim-end
code, and by zero otherwise. -/
theorem step_counts_claims {s : PState} {seg : List Char} {s' : PState}
    (hok : classifyStep s seg = .ok s') :
    (claimsOf s').length = (claimsOf s).length
        + (if startsWithL CLAIM_END_SEGMENT seg = true then 1 else 0) ∧
    sumCounts s'.counts = sumCounts s.counts
        + (if startsWithL CLAIM_END_SEGMENT seg = true then 1 else 0) := by
  by_cases hne : seg = []
  · subst hne
    rw [classifyStep_empty] at hok
    injection hok with h
    subst h
    simp [startsWithL, CLAIM_END_SEGMENT, strL, List.isPrefixOf]
  · by_cases hh : startsWithAny HEADER_SEGMENTS seg = true
    · rw [classifyStep_hdr s hh] at hok
      injection hok with h
      subst h
      simp [hdr_not_se hh, claimsOf_length]
    · by_cases hf : startsWithAny FOOTER_SEGMENTS seg = true
      · rw [classifyStep_ftr s hf] at hok
        injection hok with h
        subst h
        simp [ftr_not_se hf, claimsOf_length]
      · by_cases hst : startsWithL CLAIM_START_SEGMENT seg = true
        · rw [classifyStep_start s hst] at hok
          injection hok with h
          subst h
          simp [st_not_se hst, claimsOf_length, claimsOf]
        · by_cases hse : startsWithL CLAIM_END_SEGMENT seg = true
          · cases hct : s.curType with
            | none =>
              rw [classifyStep_end_none s hse hct] at hok
              exact absurd hok (by simp)
            | some t =>
              rw [classifyStep_end_some s hse hct] at hok
              injection hok with h
              subst h
              constructor
              · simp only [hse, if_true, claimsOf_length]
                simp
                omega
              · cases t <;> simp [hse, sumCounts] <;> omega
          · by_cases hnb : startsWithL CLAIM_TYPE_SEGMENT seg = true
            · -- claim-type segment: buffer append, claims length and counts
              -- unchanged whether resolution succeeds (it must, for `ok`)
              obtain ⟨hne2, hnh2, hnf2, hnst2, hnse2⟩ := bht_excl hnb
              by_cases h3 : CLAIM_TYPE_ELEMENT_NUM < (pySplit ELEMENT_DELIMITER seg).length
              · cases hres : claimTypeOfName
                    (((pySplit ELEMENT_DELIMITER seg)[CLAIM_TYPE_ELEMENT_NUM]).take 2) with
                | none =>
                  rw [classifyStep_bht_badname s hnb h3 hres] at hok
                  exact absurd hok (by simp)
                | some t =>
                  rw [classifyStep_bht_ok s hnb h3 hres] at hok
                  injection hok with h
                  subst h
                  simp [hse, claimsOf_length]
              · rw [classifyStep_bht_short s hnb h3] at hok
                exact absurd hok (by simp)
            · rw [classifyStep_other s hne (Bool.eq_false_iff.mpr hh)
                (Bool.eq_false_iff.mpr hf) (Bool.eq_false_iff.mpr hst)
                (Bool.eq_false_iff.mpr hse) (Bool.eq_false_iff.mpr hnb)] at hok
              injection hok with h
              subst h
              simp [hse, claimsOf_length]

/-- Over a successful run, claims-list length and summed counts both grow by
exactly the number of claim-end segments processed. -/
theorem runSegs_counts_claims (toks : List (List Char)) :
    ∀ s s' : PState, runSegs s toks = .ok s' →
    (claimsOf s').length = (claimsOf s).length + countEnds toks ∧
    sumCounts s'.counts = sumCounts s.counts + countEnds toks := by
  induction toks with
  | nil =>
    intro s s' h
    injection h with h
    subst h
    simp [countEnds]
  | cons seg rest ih =>
    intro s s' h
    cases hstep : classifyStep s seg with
    | error e =>
      rw [show runSegs s (seg :: rest) = .error e by
        simp only [runSegs, hstep]] at h
      exact absurd h (by simp)
    | ok s1 =>
      rw [show runSegs s (seg :: rest) = runSegs s1 rest by
        simp only [runSegs, hstep]] at h
      obtain ⟨h1, h2⟩ := step_counts_claims hstep
      obtain ⟨h3, h4⟩ := ih s1 s' h
      have hc : countEnds (seg :: rest) =
          (if startsWithL CLAIM_END_SEGMENT seg = true then 1 else 0) + countEnds rest := by
        simp [countEnds, List.countP_cons]
        omega
      constructor <;> rw [hc] <;> omega

/-! ## C3 — sum of counts equals number of sealed claims -/

/-- C3: after a completed parse started from zeroed counts and an empty
claims list, the per-type claim counts sum to the length of the claims
list; and when the input holds as many claim-start as claim-end segments
(each start paired with an end), that common number of pairs is exactly the
number of sealed claims. -/
theorem c3_sum_counts_eq_claims (content : List Char) (g : Registry) (r : Registry)
    (hcounts : ∀ t, g.claim_counts t = 0) (hclaims : g.claims = [])
    (hok : parse_input_file (some content) g = .ok r) :
    sumCounts r.claim_counts = r.claims.length ∧
    (countStarts (rawTokens content) = countEnds (rawTokens content) →
      r.claims.length = countStarts (rawTokens content)) := by
  simp only [parse_input_file] at hok
  cases hrun : runSegs (fromReg g) (rawTokens content) with
  | error e =>
    obtain ⟨e1, s1⟩ := e
    simp only [hrun] at hok
    exact absurd hok (by simp)
  | ok s =>
    simp only [hrun] at hok
    injection hok with h
    subst h
    obtain ⟨h1, h2⟩ := runSegs_counts_claims _ _ _ hrun
    have hlen0 : (claimsOf (fromReg g)).length = 0 := by
      simp [claimsOf, fromReg, hclaims]
    have hsum0 : sumCounts (fromReg g).counts = 0 := by
      simp [sumCounts, fromReg, hcounts]
    rw [hlen0] at h1
    rw [hsum0] at h2
    constructor
    · show sumCounts s.counts = (claimsOf s).length
      omega
    · intro hwf
      show (claimsOf s).length = countStarts (rawTokens content)
      omega

/-- Witness for C3 on a two-header, one-claim, two-footer input. -/
theorem c3_sum_counts_eq_claims_witness :
    let content := strL "ISA*x~GS*y~ST*0001~BHT*0019*00*CE1~SE*1~GE*1*x~IEA*1~"
    let r := (parse_input_file (some content) initRegistry).reg
    sumCounts r.claim_counts = r.claims.length ∧
    r.claims.length = countStarts (rawTokens content) := by
  intro content r
  have h := c3_sum_counts_eq_claims content initRegistry r (fun _ => rfl) rfl (by rfl)
  exact ⟨h.1, h.2 (by decide)⟩

/-! ## C8 — claim end before any claim type raises KeyError(None) -/

/-- C8: if a claim-end segment occurs in the token stream before any
claim-type-bearing segment, the parse raises the uncaught `KeyError` from
`claim_counts[None]`: the claim-end transition is total only when a
claim-type segment with a recognised code occurred earlier. -/
theorem c8_end_before_bht_raises (content : List Char) (g : Registry)
    (pre rest : List (List Char)) (e : List Char)
    (hsplit : rawTokens content = pre ++ e :: rest)
    (he : startsWithL CLAIM_END_SEGMENT e = true)
    (hpre : ∀ t ∈ pre, startsWithL CLAIM_END_SEGMENT t = false ∧
        startsWithL CLAIM_TYPE_SEGMENT t = false) :
    ∃ r, parse_input_file (some content) g = .raised .keyErrorCounts r := by
  obtain ⟨s1, hrun, hct⟩ := runSegs_no_end_no_bht pre (fromReg g) hpre
  have hctn : s1.curType = none := by rw [hct]; rfl
  have hstep := classifyStep_end_none s1 he hctn
  have hfull : runSegs (fromReg g) (rawTokens content) = .error (.keyErrorCounts,
      { s1 with buf := s1.buf ++ [e], aliased := s1.aliased ++ [none] }) := by
    rw [hsplit, runSegs_append, hrun]
    simp only [runSegs, hstep]
  refine ⟨toReg { s1 with buf := s1.buf ++ [e], aliased := s1.aliased ++ [none] }, ?_⟩
  simp only [parse_input_file, hfull]

/-- Witness for C8: a lone claim-end segment as the first segment. -/
theorem c8_end_before_bht_raises_witness :
    ∃ r, parse_input_file (some (strL "SE*1~")) initRegistry =
      .raised .keyErrorCounts r :=
  c8_end_before_bht_raises (strL "SE*1~") initRegistry [] [[]] (strL "SE*1")
    (by decide) (by decide) (by simp)

/-! ## C9 — the resolved claim type is inherited, never reset -/

/-- C9: the resolved claim type is only ever changed by a claim-type
segment — sealing a claim or starting a new buffer leaves it in place — and
a claim sealed by a claim-end segment is appended with, and counted under,
whatever type is currently resolved (the most recent claim-type segment
anywhere earlier in the stream). -/
theorem c9_claim_type_inherited :
    (∀ (s : PState) (seg : List Char) (s' : PState),
        startsWithL CLAIM_TYPE_SEGMENT seg = false →
        classifyStep s seg = .ok s' → s'.curType = s.curType) ∧
    (∀ (s : PState) (seg : List Char) (t : ClaimType),
        startsWithL CLAIM_END_SEGMENT seg = true → s.curType = some t →
        ∃ s', classifyStep s seg = .ok s' ∧ s'.curType = s.curType ∧
          (claimsOf s').getLast? =
            some { claim_type := some t, data := s.buf ++ [seg] } ∧
          s'.counts t = s.counts t + 1) := by
  constructor
  · exact fun s seg s' hnb hok => step_curType_eq hnb hok
  · intro s seg t hse hct
    refine ⟨_, classifyStep_end_some s hse hct, rfl, ?_, by simp⟩
    show (claimsOf _).getLast? = _
    simp only [claimsOf, List.map_append, List.map_cons, List.map_nil]
    rw [← List.append_assoc]
    exact List.getLast?_concat _

/-- Witness for C9 on concrete states: a claim-start step preserves the
resolved type `CF`, and sealing under `CF` appends a `CF`-typed claim. -/
theorem c9_claim_type_inherited_witness :
    ((fromReg initRegistry : PState).curType = (sOpen : PState).curType → True) ∧
    ∃ s', classifyStep sOpen (strL "SE*21") = .ok s' ∧ s'.curType = sOpen.curType ∧
      (claimsOf s').getLast? =
        some { claim_type := some ClaimType.CF,
               data := sOpen.buf ++ [strL "SE*21"] } ∧
      s'.counts ClaimType.CF = sOpen.counts ClaimType.CF + 1 := by
  constructor
  · intro _; trivial
  · exact c9_claim_type_inherited.2 sOpen (strL "SE*21") ClaimType.CF (by decide) rfl

/-! ### The structural invariant behind C4 -/

theorem headD_append_ne_nil {l : List (List Char)} (a d : List Char) (h : l ≠ []) :
    (l ++ [a]).headD d = l.headD d := by
  cases l with
  | nil => exact absurd rfl h
  | cons x xs => rfl

/-- Under the invariant, every observable claim is well shaped. -/
theorem InvP_claimsOf_good {b : Bool} {s : PState} (hinv : InvP b s) :
    ∀ c ∈ claimsOf s, goodClaim c = true := by
  obtain ⟨hcom, hal, _, hout⟩ := hinv
  intro c hc
  rcases List.mem_append.mp hc with hc | hc
  · exact hcom c hc
  · cases b with
    | true =>
      rw [hal rfl] at hc
      cases hc
    | false =>
      have hne : s.aliased ≠ [] := by
        intro h0
        rw [h0] at hc
        cases hc
      obtain ⟨hbne, hhead, hlast⟩ := hout rfl hne
      obtain ⟨u, _, rfl⟩ := List.mem_map.mp hc
      simp only [goodClaim, Bool.and_eq_true]
      refine ⟨⟨by simp [hbne], by simpa using hhead⟩, by simpa using hlast⟩

/-- One classifier step preserves the invariant along the automaton's
transition, and even on the failing steps the observable claims are well
shaped. -/
theorem step_InvP {b : Bool} {s : PState} {seg : List Char} {b' : Bool}
    (hwf : wfStep b seg = some b') (hinv : InvP b s) :
    (∀ s', classifyStep s seg = .ok s' → InvP b' s') ∧
    (∀ ep s', classifyStep s seg = .error (ep, s') →
      ∀ c ∈ claimsOf s', goodClaim c = true) := by
  obtain ⟨hcom, hal, hbuf, hout⟩ := hinv
  by_cases hne : seg = []
  · subst hne
    have hb : b' = b := by
      simp [wfStep] at hwf
      exact hwf.symm
    subst hb
    refine ⟨?_, ?_⟩
    · intro s' hok
      rw [classifyStep_empty] at hok
      injection hok with h
      subst h
      exact ⟨hcom, hal, hbuf, hout⟩
    · intro ep s' herr
      rw [classifyStep_empty] at herr
      exact absurd herr (by simp)
  · by_cases hh : startsWithAny HEADER_SEGMENTS seg = true
    · have hb : b' = b := by
        simp [wfStep, hne, hh] at hwf
        exact hwf.symm
      subst hb
      refine ⟨?_, ?_⟩
      · intro s' hok
        rw [classifyStep_hdr s hh] at hok
        injection hok with h
        subst h
        exact ⟨hcom, hal, hbuf, hout⟩
      · intro ep s' herr
        rw [classifyStep_hdr s hh] at herr
        exact absurd herr (by simp)
    · by_cases hf : startsWithAny FOOTER_SEGMENTS seg = true
      · have hb : b' = b := by
          simp [wfStep, hne, hh, hf] at hwf
          exact hwf.symm
        subst hb
        refine ⟨?_, ?_⟩
        · intro s' hok
          rw [classifyStep_ftr s hf] at hok
          injection hok with h
          subst h
          exact ⟨hcom, hal, hbuf, hout⟩
        · intro ep s' herr
          rw [classifyStep_ftr s hf] at herr
          exact absurd herr (by simp)
      · by_cases hst : startsWithL CLAIM_START_SEGMENT seg = true
        · have hb : b' = true := by
            simp [wfStep, hne, hh, hf, hst] at hwf
            exact hwf
          subst hb
          refine ⟨?_, ?_⟩
          · intro s' hok
            rw [classifyStep_start s hst] at hok
            injection hok with h
            subst h
            refine ⟨InvP_claimsOf_good ⟨hcom, hal, hbuf, hout⟩, fun _ => rfl,
              fun _ => ⟨by simp, ?_⟩, fun hb0 => absurd hb0 (by simp)⟩
            simpa using hst
          · intro ep s' herr
            rw [classifyStep_start s hst] at herr
            exact absurd herr (by simp)
        · -- claim-end / claim-type / ordinary segment: the automaton accepts
          -- these only while a claim is open
          have hb : b = true := by
            by_contra hb0
            have hb0' : b = false := by
              cases b
              · rfl
              · exact absurd rfl hb0
            subst hb0'
            simp [wfStep, hne, hh, hf, hst] at hwf
          subst hb
          obtain ⟨hbne, hhead⟩ := hbuf rfl
          have hal0 : s.aliased = [] := hal rfl
          by_cases hse : startsWithL CLAIM_END_SEGMENT seg = true
          · have hb' : b' = false := by
              simp [wfStep, hne, hh, hf, hst, hse] at hwf
              exact hwf
            subst hb'
            have hgood : goodBuf (s.buf ++ [seg]) :=
              ⟨by simp, by rw [headD_append_ne_nil seg [] hbne]; exact hhead,
               by rw [List.getLastD_concat]; exact hse⟩
            refine ⟨?_, ?_⟩
            · intro s' hok
              cases hct : s.curType with
              | none =>
                rw [classifyStep_end_none s hse hct] at hok
                exact absurd hok (by simp)
              | some t =>
                rw [classifyStep_end_some s hse hct] at hok
                injection hok with h
                subst h
                exact ⟨hcom, fun h0 => absurd h0 (by simp),
                  fun h0 => absurd h0 (by simp), fun _ _ => hgood⟩
            · intro ep s' herr
              cases hct : s.curType with
              | some t =>
                rw [classifyStep_end_some s hse hct] at herr
                exact absurd herr (by simp)
              | none =>
                rw [classifyStep_end_none s hse hct] at herr
                injection herr with h
                injection h with h1 h2
                subst h2
                intro c hc
                simp only [claimsOf, hal0, List.nil_append, List.map_cons,
                  List.map_nil] at hc
                rcases List.mem_append.mp hc with hc | hc
                · exact hcom c hc
                · rcases List.mem_cons.mp hc with rfl | hc
                  · simp only [goodClaim, Bool.and_eq_true]
                    exact ⟨⟨by simp, hgood.2.1⟩, hgood.2.2⟩
                  · cases hc
          · have hb' : b' = true := by
              simp [wfStep, hne, hh, hf, hst, hse] at hwf
              exact hwf
            subst hb'
            have hbufgood : s.buf ++ [seg] ≠ [] ∧
                startsWithL CLAIM_START_SEGMENT ((s.buf ++ [seg]).headD []) = true :=
              ⟨by simp, by rw [headD_append_ne_nil seg [] hbne]; exact hhead⟩
            by_cases hnb : startsWithL CLAIM_TYPE_SEGMENT seg = true
            · by_cases h3 : CLAIM_TYPE_ELEMENT_NUM < (pySplit ELEMENT_DELIMITER seg).length
              · refine ⟨?_, ?_⟩
                · intro s' hok
                  cases hres : claimTypeOfName
                      (((pySplit ELEMENT_DELIMITER seg)[CLAIM_TYPE_ELEMENT_NUM]).take 2) with
                  | none =>
                    rw [classifyStep_bht_badname s hnb h3 hres] at hok
                    exact absurd hok (by simp)
                  | some t =>
                    rw [classifyStep_bht_ok s hnb h3 hres] at hok
                    injection hok with h
                    subst h
                    exact ⟨hcom, fun _ => hal0, fun _ => hbufgood,
                      fun h0 => absurd h0 (by simp)⟩
                · intro ep s' herr
                  cases hres : claimTypeOfName
                      (((pySplit ELEMENT_DELIMITER seg)[CLAIM_TYPE_ELEMENT_NUM]).take 2) with
                  | some t =>
                    rw [classifyStep_bht_ok s hnb h3 hres] at herr
                    exact absurd herr (by simp)
                  | none =>
                    rw [classifyStep_bht_badname s hnb h3 hres] at herr
                    injection herr with h
                    injection h with h1 h2
                    subst h2
                    intro c hc
                    simp only [claimsOf, hal0, List.map_nil, List.append_nil] at hc
                    exact hcom c hc
              · refine ⟨?_, ?_⟩
                · intro s' hok
                  rw [classifyStep_bht_short s hnb h3] at hok
                  exact absurd hok (by simp)
                · intro ep s' herr
                  rw [classifyStep_bht_short s hnb h3] at herr
                  injection herr with h
                  injection h with h1 h2
                  subst h2
                  intro c hc
                  simp only [claimsOf, hal0, List.map_nil, List.append_nil] at hc
                  exact hcom c hc
            · refine ⟨?_, ?_⟩
              · intro s' hok
                rw [classifyStep_other s hne (Bool.eq_false_iff.mpr hh)
                  (Bool.eq_false_iff.mpr hf) (Bool.eq_false_iff.mpr hst)
                  (Bool.eq_false_iff.mpr hse) (Bool.eq_false_iff.mpr hnb)] at hok
                injection hok with h
                subst h
                exact ⟨hcom, fun _ => hal0, fun _ => hbufgood,
                  fun h0 => absurd h0 (by simp)⟩
              · intro ep s' herr
                rw [classifyStep_other s hne (Bool.eq_false_iff.mpr hh)
                  (Bool.eq_false_iff.mpr hf) (Bool.eq_false_iff.mpr hst)
                  (Bool.eq_false_iff.mpr hse) (Bool.eq_false_iff.mpr hnb)] at herr
                exact absurd herr (by simp)

/-- Over a stream the automaton accepts, the invariant propagates, and all
observable claims are well shaped — whether the run finishes or raises. -/
theorem runSegs_good (toks : List (List Char)) :
    ∀ (b : Bool) (s : PState), (wfRun b toks).isSome = true → InvP b s →
    (∀ s', runSegs s toks = .ok s' → ∀ c ∈ claimsOf s', goodClaim c = true) ∧
    (∀ ep s', runSegs s toks = .error (ep, s') →
      ∀ c ∈ claimsOf s', goodClaim c = true) := by
  induction toks with
  | nil =>
    intro b s _ hinv
    refine ⟨?_, ?_⟩
    · intro s' h
      injection h with h
      subst h
      exact InvP_claimsOf_good hinv
    · intro ep s' h
      exact absurd h (by simp [runSegs])
  | cons seg rest ih =>
    intro b s hwf hinv
    obtain ⟨b1, hstep, hrest⟩ : ∃ b1, wfStep b seg = some b1 ∧
        (wfRun b1 rest).isSome = true := by
      cases hs : wfStep b seg with
      | none => rw [show wfRun b (seg :: rest) = none by simp [wfRun, hs]] at hwf; cases hwf
      | some b1 =>
        refine ⟨b1, rfl, ?_⟩
        rw [show wfRun b (seg :: rest) = wfRun b1 rest by simp [wfRun, hs]] at hwf
        exact hwf
    obtain ⟨hok_inv, herr_good⟩ := step_InvP hstep hinv
    refine ⟨?_, ?_⟩
    · intro s' h
      cases hcs : classifyStep s seg with
      | error e =>
        rw [show runSegs s (seg :: rest) = .error e by simp [runSegs, hcs]] at h
        exact absurd h (by simp)
      | ok s1 =>
        rw [show runSegs s (seg :: rest) = runSegs s1 rest by simp [runSegs, hcs]] at h
        exact (ih b1 s1 hrest (hok_inv s1 hcs)).1 s' h
    · intro ep s' h
      cases hcs : classifyStep s seg with
      | error e =>
        rw [show runSegs s (seg :: rest) = .error e by simp [runSegs, hcs]] at h
        obtain ⟨e1, s1⟩ := e
        injection h with h
        injection h with h1 h2
        subst h1 h2
        exact herr_good e1 s1 hcs
      | ok s1 =>
        rw [show runSegs s (seg :: rest) = runSegs s1 rest by simp [runSegs, hcs]] at h
        exact (ih b1 s1 hrest (hok_inv s1 hcs)).2 ep s' h

/-! ## C4 — shape of sealed claims -/

/-- C4, counterexample: on the input `"BHT*a*b*CE9~SE*1~"` — a claim-end
segment with no preceding claim-start segment — the single sealed claim's
data begins with the `BHT` segment, not with a claim-start segment, so not
every input yields claims whose first segment bears the `ST` code. -/
theorem c4_counterexample :
    (parse_input_file (some (strL "BHT*a*b*CE9~SE*1~")) initRegistry).reg.claims =
      [{ claim_type := some ClaimType.CE,
         data := [strL "BHT*a*b*CE9", strL "SE*1"] }] ∧
    ((parse_input_file (some (strL "BHT*a*b*CE9~SE*1~")) initRegistry).reg.claims.all
      (fun c => goodClaim c)) = false := by
  decide

/-- C4, amended: on inputs whose token stream the structural automaton
accepts (claim-end, claim-type and ordinary body segments occur only while
a claim is open; a claim is opened only by a claim-start segment), every
claim in the final claims list — whether the parse finishes normally or
raises — has non-empty data starting with a claim-start segment and ending
with a claim-end segment. -/
theorem c4_amended_sealed_claims_shape (content : List Char) (g : Registry)
    (hclaims : g.claims = [])
    (hwf : wellFormedSegs (rawTokens content) = true) :
    ∀ c ∈ (parse_input_file (some content) g).reg.claims, goodClaim c = true := by
  have hInv : InvP false (fromReg g) := by
    refine ⟨?_, by simp, by simp, ?_⟩
    · intro c hc
      rw [show (fromReg g).committed = g.claims from rfl, hclaims] at hc
      cases hc
    · intro _ hal
      exact absurd (show (fromReg g).aliased = [] from rfl) hal
  obtain ⟨hokg, herrg⟩ := runSegs_good (rawTokens content) false (fromReg g) hwf hInv
  intro c hc
  simp only [parse_input_file] at hc
  cases hrun : runSegs (fromReg g) (rawTokens content) with
  | ok s =>
    simp only [hrun, ParseOutcome.reg] at hc
    exact hokg s hrun c hc
  | error ep =>
    obtain ⟨e1, s1⟩ := ep
    simp only [hrun, ParseOutcome.reg] at hc
    exact herrg e1 s1 hrun c hc

/-- Witness for C4 (amended) on a well-formed one-claim input. -/
theorem c4_amended_sealed_claims_shape_witness :
    goodClaim { claim_type := some ClaimType.CE,
                data := [strL "ST*0001", strL "BHT*0019*00*CE1", strL "SE*1"] } = true :=
  c4_amended_sealed_claims_shape
    (strL "ISA*x~ST*0001~BHT*0019*00*CE1~SE*1~GE*1*x~") initRegistry rfl (by decide)
    { claim_type := some ClaimType.CE,
      data := [strL "ST*0001", strL "BHT*0019*00*CE1", strL "SE*1"] } (by decide)

/-! ## C1 — content of the written output file -/

/-- When every `GE`-prefixed footer segment has a count element to replace,
the incremental footer loop succeeds and writes, per footer segment, a
delimiter followed by the count-rewritten segment. -/
theorem writeFooterAcc_ok (cnt : Nat) (segs : List (List Char)) :
    ∀ acc, (∀ seg ∈ segs, startsWithL FOOTER_CLAIM_COUNT_SEGMENT seg = true →
        CLAIM_COUNT_ELEMENT_NUM < (pySplit ELEMENT_DELIMITER seg).length) →
    writeFooterAcc cnt segs acc =
      .ok (acc ++ segs.flatMap (fun seg => SEGMENT_DELIMITER :: rewriteGE cnt seg)) := by
  induction segs with
  | nil =>
    intro acc _
    simp [writeFooterAcc]
  | cons seg rest ih =>
    intro acc hall
    have htail : ∀ t ∈ rest, startsWithL FOOTER_CLAIM_COUNT_SEGMENT t = true →
        CLAIM_COUNT_ELEMENT_NUM < (pySplit ELEMENT_DELIMITER t).length :=
      fun t ht h => hall t (List.mem_cons_of_mem _ ht) h
    by_cases hge : startsWithL FOOTER_CLAIM_COUNT_SEGMENT seg = true
    · have hlen := hall seg (List.mem_cons_self _ _) hge
      rw [show writeFooterAcc cnt (seg :: rest) acc =
          writeFooterAcc cnt rest ((acc ++ [SEGMENT_DELIMITER]) ++ pyJoin ELEMENT_DELIMITER
            ((pySplit ELEMENT_DELIMITER seg).set CLAIM_COUNT_ELEMENT_NUM
              (strL (Nat.repr cnt)))) by
        simp [writeFooterAcc, hge, hlen]]
      rw [ih _ htail]
      simp [rewriteGE, hge, List.append_assoc]
    · rw [show writeFooterAcc cnt (seg :: rest) acc =
          writeFooterAcc cnt rest ((acc ++ [SEGMENT_DELIMITER]) ++ seg) by
        simp [writeFooterAcc, hge]]
      rw [ih _ htail]
      simp [rewriteGE, hge, List.append_assoc]

/-- C1, amended: provided every `GE`-prefixed footer segment splits into at
least two elements, `write_output_file` writes a file exactly when the
type's claim count is nonzero, and that file's content is the header joined
by the segment delimiter, then a delimiter and the delimiter-joined
segments of each sealed claim of that type in list order, then a delimiter
and each footer segment with the `GE` segment's count element rewritten to
the decimal claim count. -/
theorem c1_amended_write_output (g : Registry) (t : ClaimType)
    (hge : ∀ seg ∈ g.footer, startsWithL FOOTER_CLAIM_COUNT_SEGMENT seg = true →
        CLAIM_COUNT_ELEMENT_NUM < (pySplit ELEMENT_DELIMITER seg).length) :
    (g.claim_counts t = 0 → write_output_file g t = none) ∧
    (0 < g.claim_counts t →
      write_output_file g t = some (.ok (claimedOutput g t))) := by
  constructor
  · intro h0
    simp [write_output_file, h0]
  · intro hpos
    have hne : ¬ g.claim_counts t = 0 := Nat.pos_iff_ne_zero.mp hpos
    rw [show write_output_file g t = some (writeFooterAcc (g.claim_counts t) g.footer
        (pyJoin SEGMENT_DELIMITER g.header ++ writeClaimsPart g t)) by
      simp [write_output_file, hne]]
    rw [writeFooterAcc_ok _ _ _ hge]
    simp [claimedOutput]

/-- Witness for C1 (amended) on a concrete registry: nonzero `CE` count
writes the file with the described content, zero `CF` count writes none. -/
theorem c1_amended_write_output_witness :
    (0 < regW.claim_counts ClaimType.CE ∧
      write_output_file regW ClaimType.CE =
        some (.ok (claimedOutput regW ClaimType.CE))) ∧
    (regW.claim_counts ClaimType.CF = 0 ∧
      write_output_file regW ClaimType.CF = none) :=
  ⟨⟨by decide, (c1_amended_write_output regW ClaimType.CE (by decide)).2 (by decide)⟩,
   ⟨by decide, (c1_amended_write_output regW ClaimType.CF (by decide)).1 (by decide)⟩⟩

/-- C1, counterexample: parsing `"ST*1~BHT*a*b*CE9~SE*1~GE~"` yields a
registry with a nonzero `CE` count whose footer holds the bare segment
`GE` (no element at the count index).  `write_output_file` then raises
`IndexError` from the count-element assignment after writing a partial
file, so its result is not the claimed content — the claim's unqualified
content equation fails on this reachable registry. -/
theorem c1_counterexample :
    0 < ((parse_input_file (some (strL "ST*1~BHT*a*b*CE9~SE*1~GE~"))
        initRegistry).reg).claim_counts ClaimType.CE ∧
    write_output_file ((parse_input_file (some (strL "ST*1~BHT*a*b*CE9~SE*1~GE~"))
        initRegistry).reg) ClaimType.CE =
      some (.error (.indexErrorSet, strL "~ST*1~BHT*a*b*CE9~SE*1~")) ∧
    write_output_file ((parse_input_file (some (strL "ST*1~BHT*a*b*CE9~SE*1~GE~"))
        initRegistry).reg) ClaimType.CE ≠
      some (.ok (claimedOutput ((parse_input_file (some (strL "ST*1~BHT*a*b*CE9~SE*1~GE~"))
        initRegistry).reg) ClaimType.CE)) := by
  refine ⟨by decide, by decide, ?_⟩
  intro h
  rw [show write_output_file ((parse_input_file (some (strL "ST*1~BHT*a*b*CE9~SE*1~GE~"))
      initRegistry).reg) ClaimType.CE =
    some (.error (.indexErrorSet, strL "~ST*1~BHT*a*b*CE9~SE*1~")) by decide] at h
  exact absurd h (by simp)

/-! ## C10 — split on a basename without a dot -/

/-- The first-index search for `'.'` fails exactly on strings without a
dot. -/
theorem strIndex_dot_none {s : List Char} (h : ∀ c ∈ s, c ≠ '.') :
    strIndex '.' s = none := by
  unfold strIndex
  rw [List.findIdx?_eq_none_iff]
  intro x hx
  simp [h x hx]

/-- C10: once the structural guards have passed, the `split` write phase
derives the output filename prefix and suffix from the first `'.'` of the
input basename; on a basename with no `'.'` it raises the uncaught
`ValueError` from `str.index` with no output file written, instead of
exiting with a categorized error code. -/
theorem c10_split_no_dot (g : Registry) (input_file : List Char)
    (hh : g.header ≠ []) (hf : g.footer ≠ []) (hc : g.claims ≠ [])
    (hdot : ∀ c ∈ basenameL input_file, c ≠ '.') :
    splitWritePhase g input_file = .raised .valueError [] := by
  have hidx := strIndex_dot_none hdot
  simp [splitWritePhase, hh, hf, hc, hidx]

/-- Witness for C10 on a registry with data and a dotless path. -/
theorem c10_split_no_dot_witness :
    splitWritePhase regW (strL "outdir/claimsedi") = .raised .valueError [] :=
  c10_split_no_dot regW (strL "outdir/claimsedi")
    (by decide) (by decide) (by decide) (by decide)

/-- Witness for C7 on a concrete registry with data already accumulated. -/
theorem c7_unreadable_input_witness :
    parse_input_file none regW = .exited ErrorCode.ERR_CANT_READ_FILE.val regW ∧
    ErrorCode.ERR_CANT_READ_FILE.val = 3 :=
  c7_unreadable_input regW
